import Mathlib

/-!
Verification development for the Slack knowledge-assistant pipeline
(`src/slack-knowledge-assistant.py`).

Shallow embedding conventions:
- Python `str` is modelled as `List Char` (a sequence of code points, ASCII
  behaviour of `str.lower` / `str.strip`).
- External collaborators (the wiki provider, the text-completion oracle,
  the relational executor, the database connection) are modelled as inputs:
  the provider as a raw result list, each oracle call as an
  `Except Text Text` (error payload = the raised message), connection
  opening as `Except Text Executor`, and the executor as a function from a
  query string to `Except Text (columns, rows)`.
- A Python function that may raise is embedded as a function into
  `Except Text _`; `Except.error` is an uncaught exception escaping it.
- Row values are modelled already stringified (code applies `str(value)`
  before filtering), so stringification is the identity here.
-/

abbrev Text := List Char

/-- ASCII lowercase mapping, the behaviour of Python `str.lower` on ASCII. -/
def lowerChar (c : Char) : Char :=
  match c with
  | 'A' => 'a' | 'B' => 'b' | 'C' => 'c' | 'D' => 'd' | 'E' => 'e'
  | 'F' => 'f' | 'G' => 'g' | 'H' => 'h' | 'I' => 'i' | 'J' => 'j'
  | 'K' => 'k' | 'L' => 'l' | 'M' => 'm' | 'N' => 'n' | 'O' => 'o'
  | 'P' => 'p' | 'Q' => 'q' | 'R' => 'r' | 'S' => 's' | 'T' => 't'
  | 'U' => 'u' | 'V' => 'v' | 'W' => 'w' | 'X' => 'x' | 'Y' => 'y'
  | 'Z' => 'z'
  | c => c

/-- Python `str.lower` (ASCII fragment). -/
def pyLower (s : Text) : Text := s.map lowerChar

/-- The image of the uppercase branch of `lowerChar`. -/
def lowerLetters : List Char :=
  ['a','b','c','d','e','f','g','h','i','j','k','l','m',
   'n','o','p','q','r','s','t','u','v','w','x','y','z']

/-- The characters Python `str.strip` removes (ASCII whitespace). -/
def pyIsSpace (c : Char) : Bool :=
  c == ' ' || c == '\t' || c == '\n' || c == '\r' || c == '\x0b' || c == '\x0c'

/-- Python `str.strip`: drop leading and trailing whitespace. -/
def pyStrip (s : Text) : Text :=
  ((s.dropWhile pyIsSpace).reverse.dropWhile pyIsSpace).reverse

/-- Python `s.startswith(pre)`. -/
def pyStartsWith (s pre : Text) : Bool := pre.isPrefixOf s

/-- One item of a blocked-content regular expression, covering exactly the
constructs the configured patterns use: a case-insensitive literal
character, an optional case-insensitive literal (`[s]?`), and an optional
any-character-but-newline (`.?`). -/
inductive RItem where
  | lit : Char → RItem
  | optLit : Char → RItem
  | optDot : RItem
deriving DecidableEq

/-- Does the pattern match some prefix of the input (Boolean matcher,
the executable semantics of `re.match` at one position)? -/
def matchFrom : List RItem → Text → Bool
  | [], _ => true
  | RItem.lit _ :: _, [] => false
  | RItem.lit c :: ps, x :: xs => (lowerChar x == lowerChar c) && matchFrom ps xs
  | RItem.optLit c :: ps, xs =>
      matchFrom ps xs ||
        (match xs with
         | [] => false
         | x :: xs2 => (lowerChar x == lowerChar c) && matchFrom ps xs2)
  | RItem.optDot :: ps, xs =>
      matchFrom ps xs ||
        (match xs with
         | [] => false
         | x :: xs2 => (x != '\n') && matchFrom ps xs2)

/-- `re.search`: the pattern matches starting at some position of the text. -/
def research (p : List RItem) : Text → Bool
  | [] => matchFrom p []
  | x :: xs => matchFrom p (x :: xs) || research p xs

/-- Turn a plain case-insensitive literal string into pattern items. -/
def litsOf (s : Text) : List RItem := s.map RItem.lit

/-- Pattern `(?i)password[s]?`. -/
def passwordPat : List RItem := litsOf "password".data ++ [RItem.optLit 's']

/-- Pattern `(?i)credit.?card`. -/
def creditCardPat : List RItem :=
  litsOf "credit".data ++ [RItem.optDot] ++ litsOf "card".data

/-- Pattern `(?i)ssn`. -/
def ssnPat : List RItem := litsOf "ssn".data

/-- Pattern `(?i)social.?security`. -/
def socialSecurityPat : List RItem :=
  litsOf "social".data ++ [RItem.optDot] ++ litsOf "security".data

/-- The `blocked_patterns` list of `ContentFilter.__init__`. -/
def blocked_patterns : List (List RItem) :=
  [passwordPat, creditCardPat, ssnPat, socialSecurityPat]

/-- `ContentFilter.is_safe_content`: false as soon as one blocked pattern
matches somewhere in the text, true when none does. -/
def is_safe_content (text : Text) : Bool :=
  !(blocked_patterns.any fun pattern => research pattern text)


/-- A raw wiki-provider result, a dict whose keys may be absent:
`result.get('title')`, `result.get('excerpt')`, `result.get('content', '')`,
`result.get('_links', \x7b\x7d).get('webui')`. -/
structure RawResult where
  title : Option Text
  excerpt : Option Text
  content : Option Text
  links_webui : Option Text
deriving DecidableEq

/-- The dict appended by `search_confluence` for a surviving raw result. -/
structure SourceExcerpt where
  title : Option Text
  excerpt : Option Text
  url : Option Text
deriving DecidableEq

/-- The dict literal built on lines 72-76 of the source. -/
def mkExcerpt (r : RawResult) : SourceExcerpt :=
  { title := r.title, excerpt := r.excerpt, url := r.links_webui }

/-- `KnowledgeBase.search_confluence`, with the provider's returned list as
input (the call passes `limit=5` to the provider; the function itself does
not truncate). The loop keeps a result iff `is_safe_content` accepts its
`content` field (defaulting to the empty string), appending in order. -/
def search_confluence (results : List RawResult) : List SourceExcerpt :=
  results.foldl
    (fun filtered_results result =>
      if is_safe_content (result.content.getD []) then
        filtered_results ++ [mkExcerpt result]
      else
        filtered_results)
    []

/-- A database record: the insertion-ordered dict built by
`dict(zip(columns, row))`, values already stringified. -/
abbrev Record := List (Text × Text)

/-- Python dict insertion: overwrite in place when the key exists, else
append. -/
def pyDictInsert (d : Record) (k v : Text) : Record :=
  if d.any fun kv => kv.1 == k then
    d.map fun kv => if kv.1 == k then (k, v) else kv
  else
    d ++ [(k, v)]

/-- `dict(pairs)` for a Python pair list (later duplicate keys overwrite). -/
def pyDict (ps : List (Text × Text)) : Record :=
  ps.foldl (fun d kv => pyDictInsert d kv.1 kv.2) []

/-- The row loop of `query_database` (source lines 103-107): build
`dict(zip(columns, row))` and append it iff every value passes
`is_safe_content`. -/
def processRows (columns : List Text) (rows : List (List Text)) : List Record :=
  rows.foldl
    (fun results row =>
      let result := pyDict (columns.zip row)
      if result.all fun kv => is_safe_content kv.2 then
        results ++ [result]
      else
        results)
    []

/-- The relational executor: models `cur.execute(q)` followed by reading
`cur.description` and `cur.fetchall()`; an execution error is
`Except.error` with the raised message. -/
abbrev Executor := Text → Except Text (List Text × List (List Text))

/-- The guard on line 94 of the source:
`sql_query.lower().startswith('select')`. -/
def guardAccepts (sql_query : Text) : Bool :=
  pyStartsWith (pyLower sql_query) "select".data

/-- `KnowledgeBase.query_database`. Inputs model the externals: `sqlOracle`
is the outcome of the `llm(prompt)` call (the prompt only influences the
oracle, which is arbitrary here), `conn` the outcome of
`get_db_connection()` plus cursor creation. An oracle or connection
failure is NOT caught here (the `try` wraps only execution and row
processing), so it escapes as `Except.error`; an executor error is caught
and yields the results accumulated so far (the empty list). -/
def query_database (sqlOracle : Except Text Text) (conn : Except Text Executor) :
    Except Text (List Record) :=
  match sqlOracle with
  | Except.error e => Except.error e
  | Except.ok completion =>
    let sql_query := pyStrip completion
    if !guardAccepts sql_query then
      Except.ok []
    else
      match conn with
      | Except.error e => Except.error e
      | Except.ok exec =>
        match exec sql_query with
        | Except.error _ => Except.ok []
        | Except.ok (columns, rows) => Except.ok (processRows columns rows)

/-- Attribution step of `ResponseGenerator.generate_response` (source lines
137-149): append the sources suffix to the stripped completion when at
least one source contributed. -/
def responseText (generated_text : Text) (confluence_results : List SourceExcerpt)
    (db_results : List Record) : Text :=
  let sources : List Text :=
    (if !confluence_results.isEmpty then ["Confluence".data] else []) ++
      (if !db_results.isEmpty then ["internal database".data] else [])
  if !sources.isEmpty then
    generated_text ++ "\n\nSources: ".data ++ List.intercalate " and ".data sources
  else
    generated_text

/-- The external outcomes one request can observe. -/
structure Env where
  wikiRaw : List RawResult
  sqlOracle : Except Text Text
  conn : Except Text Executor
  synthOracle : Except Text Text

/-- `ResponseGenerator.generate_response`: gather both sources, synthesize
with the oracle, strip, and append attribution. No `ContentFilter` check is
applied to the generated text. Uncaught exceptions (oracle or connection
failures) escape as `Except.error`. -/
def generate_response (env : Env) : Except Text Text :=
  let confluence_results := search_confluence env.wikiRaw
  match query_database env.sqlOracle env.conn with
  | Except.error e => Except.error e
  | Except.ok db_results =>
    match env.synthOracle with
    | Except.error e => Except.error e
    | Except.ok completion =>
      Except.ok (responseText (pyStrip completion) confluence_results db_results)

/-- The fixed generic apology sent from both exception handlers. -/
def apologyText : Text :=
  "I apologize, but I encountered an error processing your request. Please try again or rephrase your question.".data

/-- Python `s.split(sep, 1)[1]` for a single-character separator: the text
after the first occurrence, or `none` when the separator is absent (where
the subscript raises IndexError). -/
def splitOnceAfter (sep : Char) : Text → Option Text
  | [] => none
  | x :: xs => if x == sep then some xs else splitOnceAfter sep xs

/-- `handle_mention`: extract the query after the mention marker, generate,
and reply; any exception inside the `try` is answered with the fixed
apology. The returned text is what `say` sends. -/
def handle_mention (eventText : Text) (env : Env) : Text :=
  match splitOnceAfter '>' eventText with
  | none => apologyText
  | some rest =>
    let _query := pyStrip rest
    match generate_response env with
    | Except.error _ => apologyText
    | Except.ok response => response

/-- `handle_message`: only direct messages (`channel_type == 'im'`) are
answered; `none` models ignoring the event. Errors are answered with the
fixed apology. -/
def handle_message (channelType : Text) (env : Env) : Option Text :=
  if channelType == "im".data then
    some
      (match generate_response env with
       | Except.error _ => apologyText
       | Except.ok response => response)
  else
    none

/-- Declarative matching relation for a blocked pattern: `PMatch p s` holds
when the pattern `p` matches exactly the string `s` (the specification the
Boolean matcher `matchFrom` is checked against). -/
inductive PMatch : List RItem → Text → Prop where
  | nil : PMatch [] []
  | lit : ∀ (c : Char) (ps : List RItem) (x : Char) (s : Text),
      lowerChar x = lowerChar c → PMatch ps s → PMatch (RItem.lit c :: ps) (x :: s)
  | optLitSkip : ∀ (c : Char) (ps : List RItem) (s : Text),
      PMatch ps s → PMatch (RItem.optLit c :: ps) s
  | optLitTake : ∀ (c : Char) (ps : List RItem) (x : Char) (s : Text),
      lowerChar x = lowerChar c → PMatch ps s → PMatch (RItem.optLit c :: ps) (x :: s)
  | optDotSkip : ∀ (ps : List RItem) (s : Text),
      PMatch ps s → PMatch (RItem.optDot :: ps) s
  | optDotTake : ∀ (ps : List RItem) (x : Char) (s : Text),
      x ≠ '\n' → PMatch ps s → PMatch (RItem.optDot :: ps) (x :: s)

/-- The text contains a substring exactly matched by the pattern. -/
def ContainsPatternMatch (p : List RItem) (t : Text) : Prop :=
  ∃ pre mid post, t = pre ++ mid ++ post ∧ PMatch p mid

/-- Every character of the string is Python whitespace. -/
def allWs (ws : Text) : Bool := ws.all pyIsSpace

/-- Every literal of the pattern is a lowercase-stable non-whitespace
character (true of all four configured patterns). -/
def patOkForWs (p : List RItem) : Bool :=
  p.all fun item =>
    match item with
    | RItem.lit c => (lowerChar c == c) && !pyIsSpace c
    | RItem.optLit c => (lowerChar c == c) && !pyIsSpace c
    | RItem.optDot => true

/-- The pattern starts with a mandatory lowercase-stable non-whitespace
literal (true of all four configured patterns), so no match can start at a
whitespace character. -/
def headRejectsWs (p : List RItem) : Bool :=
  match p with
  | RItem.lit c :: _ => (lowerChar c == c) && !pyIsSpace c
  | _ => false

/-- An executor that records the query it received in its single row. -/
def sampleExec : Executor := fun q => Except.ok (["col".data], [[q]])

/-- An executor that always raises, as on a malformed query or a
permission failure. -/
def failingExec : Executor := fun _ => Except.error "syntax error at or near DROP".data

/-- A raw wiki result whose content field is clean but whose excerpt field
contains blocked text. -/
def unsafeExcerptRaw : RawResult :=
  { title := some "VPN setup".data,
    excerpt := some "the admin password is hunter2".data,
    content := some "harmless overview".data,
    links_webui := some "https://wiki/vpn".data }

/-- A fully clean raw wiki result. -/
def rawGood : RawResult :=
  { title := some "VPN setup".data,
    excerpt := some "connect to the gateway".data,
    content := some "plain instructions".data,
    links_webui := some "https://wiki/vpn".data }

/-- A sample excerpt value. -/
def e0 : SourceExcerpt := { title := none, excerpt := none, url := none }

/-- A sample record value. -/
def r0 : Record := [("k".data, "v".data)]

/-- Environment whose synthesis completion echoes blocked text; the SQL
completion fails the guard, so the connection outcome is never examined. -/
def envLeak : Env :=
  { wikiRaw := [],
    sqlOracle := Except.ok "no sql for this question".data,
    conn := Except.error "unused".data,
    synthOracle := Except.ok "The admin password is hunter2".data }

/-- Environment with a clean synthesis completion. -/
def envPlain : Env :=
  { wikiRaw := [],
    sqlOracle := Except.ok "no sql for this question".data,
    conn := Except.error "unused".data,
    synthOracle := Except.ok "hello".data }

/-- Environment whose synthesis oracle call raises. -/
def envSynthFail : Env :=
  { wikiRaw := [],
    sqlOracle := Except.ok "no sql for this question".data,
    conn := Except.error "unused".data,
    synthOracle := Except.error "llama runtime error: context overflow".data }

example : is_safe_content "hello world".data = true := by decide
example : is_safe_content "my Password".data = false := by decide
example : is_safe_content "credit card".data = false := by decide
example : is_safe_content "creditcard".data = false := by decide
example : is_safe_content "credit  card".data = true := by decide
example : is_safe_content "SSN".data = false := by decide
example :
    query_database (Except.ok "DROP TABLE users;".data) (Except.error "no conn".data) =
      Except.ok [] := rfl
example :
    query_database (Except.ok "  SELECT 1".data) (Except.error "no conn".data) =
      Except.error "no conn".data := rfl
example :
    responseText "a".data [e0] [] = "a\n\nSources: Confluence".data := by decide
example :
    responseText "a".data [e0] [r0] =
      "a\n\nSources: Confluence and internal database".data := by decide

/-- A left fold that conditionally appends one transformed element per step
is filter-then-map. -/
theorem foldl_append_filter_map {α β : Type} (p : α → Bool) (f : α → β) :
    ∀ (l : List α) (acc : List β),
      l.foldl (fun acc x => if p x then acc ++ [f x] else acc) acc =
        acc ++ (l.filter p).map f := by
  intro l
  induction l with
  | nil => intro acc; simp
  | cons x xs ih =>
    intro acc
    by_cases hx : p x = true
    · simp [List.foldl, hx, ih]
    · simp only [Bool.not_eq_true] at hx
      simp [List.foldl, hx, ih]

/-- `search_confluence` keeps, in provider order, exactly the raw results
whose content field passes the filter, shaped by `mkExcerpt`. -/
theorem search_confluence_eq (raw : List RawResult) :
    search_confluence raw =
      ((raw.filter fun r => is_safe_content (r.content.getD [])).map mkExcerpt) := by
  have h := foldl_append_filter_map
    (fun r : RawResult => is_safe_content (r.content.getD [])) mkExcerpt raw []
  simpa [search_confluence] using h

/-- The row loop keeps, in executor order, exactly the all-safe records. -/
theorem processRows_eq (columns : List Text) (rows : List (List Text)) :
    processRows columns rows =
      (((rows.filter fun row =>
            (pyDict (columns.zip row)).all fun kv => is_safe_content kv.2)).map
        fun row => pyDict (columns.zip row)) := by
  have h := foldl_append_filter_map
    (fun row : List Text => (pyDict (columns.zip row)).all fun kv => is_safe_content kv.2)
    (fun row : List Text => pyDict (columns.zip row)) rows []
  simpa [processRows] using h

/-- Every value of every record produced by the row loop is safe. -/
theorem processRows_safe (columns : List Text) (rows : List (List Text)) :
    ∀ r, r ∈ processRows columns rows → ∀ kv, kv ∈ r → is_safe_content kv.2 = true := by
  intro r hr kv hkv
  rw [processRows_eq] at hr
  rcases List.mem_map.mp hr with ⟨row, hrow, hEq⟩
  rcases List.mem_filter.mp hrow with ⟨_, hall⟩
  subst hEq
  exact List.all_eq_true.mp hall kv hkv

/-- When the guard rejects, `query_database` short-circuits to the empty
list before touching the connection. -/
theorem qd_reject (completion : Text) (conn : Except Text Executor)
    (h : guardAccepts (pyStrip completion) = false) :
    query_database (Except.ok completion) conn = Except.ok [] := by
  simp [query_database, h]

/-- When the guard accepts, `query_database` hands exactly the stripped
completion to the executor and post-filters its rows. -/
theorem qd_accept (completion : Text) (exec : Executor)
    (h : guardAccepts (pyStrip completion) = true) :
    query_database (Except.ok completion) (Except.ok exec) =
      (match exec (pyStrip completion) with
       | Except.error _ => Except.ok []
       | Except.ok (columns, rows) => Except.ok (processRows columns rows)) := by
  simp [query_database, h]

/-- Whatever list `query_database` returns contains only all-safe records. -/
theorem qd_records_safe (sqlOracle : Except Text Text) (conn : Except Text Executor)
    (dbr : List Record) (h : query_database sqlOracle conn = Except.ok dbr) :
    ∀ r, r ∈ dbr → ∀ kv, kv ∈ r → is_safe_content kv.2 = true := by
  cases sqlOracle with
  | error e => simp [query_database] at h
  | ok completion =>
    by_cases hg : guardAccepts (pyStrip completion) = true
    · cases conn with
      | error e => simp [query_database, hg] at h
      | ok exec =>
        rw [qd_accept completion exec hg] at h
        cases hx : exec (pyStrip completion) with
        | error e =>
          rw [hx] at h
          simp at h
          subst h
          intro r hr
          simp at hr
        | ok res =>
          rw [hx] at h
          simp at h
          subst h
          exact processRows_safe res.1 res.2
    · simp only [Bool.not_eq_true] at hg
      rw [qd_reject completion conn hg] at h
      simp at h
      subst h
      intro r hr
      simp at hr

/-- Boolean prefix test unfolded to an explicit decomposition. -/
theorem isPrefixOf_iff_exists :
    ∀ (pre l : Text), pre.isPrefixOf l = true ↔ ∃ rest, l = pre ++ rest := by
  intro pre
  induction pre with
  | nil =>
    intro l
    simp [List.isPrefixOf]
  | cons a as ih =>
    intro l
    cases l with
    | nil =>
      simp [List.isPrefixOf]
    | cons b bs =>
      simp only [List.isPrefixOf, Bool.and_eq_true, beq_iff_eq]
      constructor
      · rintro ⟨hab, hpre⟩
        rcases (ih bs).mp hpre with ⟨rest, hrest⟩
        exact ⟨rest, by simp [hab, hrest]⟩
      · rintro ⟨rest, hrest⟩
        simp only [List.cons_append, List.cons.injEq] at hrest
        exact ⟨hrest.1.symm, (ih bs).mpr ⟨rest, hrest.2⟩⟩

/-- `lowerChar` either leaves its input unchanged or produces a lowercase
letter. -/
theorem lowerChar_cases (c : Char) : lowerChar c = c ∨ lowerChar c ∈ lowerLetters := by
  unfold lowerChar
  split <;> simp [lowerLetters]

/-- `lowerChar` fixes lowercase letters. -/
theorem lowerChar_of_lower (c : Char) (h : c ∈ lowerLetters) : lowerChar c = c := by
  fin_cases h <;> decide

/-- `lowerChar` is idempotent. -/
theorem lowerChar_idem (c : Char) : lowerChar (lowerChar c) = lowerChar c := by
  rcases lowerChar_cases c with h | h
  · rw [h]; exact h
  · exact lowerChar_of_lower _ h

/-- `lowerChar` neither creates nor destroys a newline. -/
theorem lowerChar_eq_nl (c : Char) : lowerChar c = '\n' ↔ c = '\n' := by
  rcases lowerChar_cases c with h | h
  · rw [h]
  · constructor
    · intro hnl
      rw [hnl] at h
      exact absurd h (by decide)
    · intro hc
      subst hc
      decide

/-- `lowerChar` fixes whitespace. -/
theorem lowerChar_of_space (c : Char) (h : pyIsSpace c = true) : lowerChar c = c := by
  simp only [pyIsSpace, Bool.or_eq_true, beq_iff_eq] at h
  rcases h with ((((h | h) | h) | h) | h) | h <;> subst h <;> decide

/-- Newline comparison commutes with lowercasing. -/
theorem lowerChar_beq_nl (x : Char) : (lowerChar x == '\n') = (x == '\n') := by
  by_cases h : x = '\n'
  · subst h; decide
  · have h2 : lowerChar x ≠ '\n' := fun hh => h ((lowerChar_eq_nl x).mp hh)
    simp [h, h2]

/-- Newline disequality commutes with lowercasing. -/
theorem lowerChar_bne_nl (x : Char) : (lowerChar x != '\n') = (x != '\n') := by
  simp [bne, lowerChar_beq_nl]

/-- A prefix match survives extending the input on the right. -/
theorem matchFrom_append_any (p : List RItem) :
    ∀ (s r : Text), matchFrom p s = true → matchFrom p (s ++ r) = true := by
  induction p with
  | nil => intro s r _; simp [matchFrom]
  | cons item ps ih =>
    intro s r h
    cases item with
    | lit c =>
      cases s with
      | nil => simp [matchFrom] at h
      | cons x xs =>
        simp only [List.cons_append, matchFrom, Bool.and_eq_true] at h ⊢
        exact ⟨h.1, ih xs r h.2⟩
    | optLit c =>
      cases s with
      | nil =>
        simp only [matchFrom, Bool.or_eq_true] at h
        rcases h with h | h
        · simp only [List.nil_append, matchFrom, Bool.or_eq_true]
          left
          exact (by simpa using ih [] r h)
        · cases h
      | cons x xs =>
        simp only [List.cons_append, matchFrom, Bool.or_eq_true, Bool.and_eq_true] at h ⊢
        rcases h with h | h
        · left; exact (by simpa using ih (x :: xs) r h)
        · right; exact ⟨h.1, ih xs r h.2⟩
    | optDot =>
      cases s with
      | nil =>
        simp only [matchFrom, Bool.or_eq_true] at h
        rcases h with h | h
        · simp only [List.nil_append, matchFrom, Bool.or_eq_true]
          left
          exact (by simpa using ih [] r h)
        · cases h
      | cons x xs =>
        simp only [List.cons_append, matchFrom, Bool.or_eq_true, Bool.and_eq_true] at h ⊢
        rcases h with h | h
        · left; exact (by simpa using ih (x :: xs) r h)
        · right; exact ⟨h.1, ih xs r h.2⟩

/-- Soundness: a declarative match of `mid` yields a Boolean prefix match
on `mid ++ post`. -/
theorem pmatch_matchFrom {p : List RItem} {mid : Text} (h : PMatch p mid) :
    ∀ post : Text, matchFrom p (mid ++ post) = true := by
  induction h with
  | nil => intro post; simp [matchFrom]
  | lit c ps x s hx _ ih =>
    intro post
    simp only [List.cons_append, matchFrom, Bool.and_eq_true, beq_iff_eq]
    exact ⟨hx, ih post⟩
  | optLitSkip c ps s _ ih =>
    intro post
    simp only [matchFrom, Bool.or_eq_true]
    left
    exact ih post
  | optLitTake c ps x s hx _ ih =>
    intro post
    simp only [List.cons_append, matchFrom, Bool.or_eq_true, Bool.and_eq_true, beq_iff_eq]
    right
    exact ⟨hx, ih post⟩
  | optDotSkip ps s _ ih =>
    intro post
    simp only [matchFrom, Bool.or_eq_true]
    left
    exact ih post
  | optDotTake ps x s hx _ ih =>
    intro post
    simp only [List.cons_append, matchFrom, Bool.or_eq_true, Bool.and_eq_true, bne_iff_ne]
    right
    exact ⟨hx, ih post⟩

/-- Completeness: a Boolean prefix match decomposes the input into a
declaratively matched prefix and a remainder. -/
theorem matchFrom_pmatch (p : List RItem) :
    ∀ t : Text, matchFrom p t = true → ∃ mid post, t = mid ++ post ∧ PMatch p mid := by
  induction p with
  | nil => intro t _; exact ⟨[], t, rfl, PMatch.nil⟩
  | cons item ps ih =>
    intro t h
    cases item with
    | lit c =>
      cases t with
      | nil => simp [matchFrom] at h
      | cons x xs =>
        simp only [matchFrom, Bool.and_eq_true, beq_iff_eq] at h
        rcases ih xs h.2 with ⟨mid, post, hxs, pm⟩
        exact ⟨x :: mid, post, by simp [hxs], PMatch.lit c ps x mid h.1 pm⟩
    | optLit c =>
      cases t with
      | nil =>
        simp only [matchFrom, Bool.or_eq_true] at h
        rcases h with h | h
        · rcases ih [] h with ⟨mid, post, hnil, pm⟩
          exact ⟨mid, post, hnil, PMatch.optLitSkip c ps mid pm⟩
        · cases h
      | cons x xs =>
        simp only [matchFrom, Bool.or_eq_true, Bool.and_eq_true, beq_iff_eq] at h
        rcases h with h | h
        · rcases ih (x :: xs) h with ⟨mid, post, hd, pm⟩
          exact ⟨mid, post, hd, PMatch.optLitSkip c ps mid pm⟩
        · rcases ih xs h.2 with ⟨mid, post, hxs, pm⟩
          exact ⟨x :: mid, post, by simp [hxs], PMatch.optLitTake c ps x mid h.1 pm⟩
    | optDot =>
      cases t with
      | nil =>
        simp only [matchFrom, Bool.or_eq_true] at h
        rcases h with h | h
        · rcases ih [] h with ⟨mid, post, hnil, pm⟩
          exact ⟨mid, post, hnil, PMatch.optDotSkip ps mid pm⟩
        · cases h
      | cons x xs =>
        simp only [matchFrom, Bool.or_eq_true, Bool.and_eq_true, bne_iff_ne] at h
        rcases h with h | h
        · rcases ih (x :: xs) h with ⟨mid, post, hd, pm⟩
          exact ⟨mid, post, hd, PMatch.optDotSkip ps mid pm⟩
        · rcases ih xs h.2 with ⟨mid, post, hxs, pm⟩
          exact ⟨x :: mid, post, by simp [hxs], PMatch.optDotTake ps x mid h.1 pm⟩

/-- `research` finds a match iff the pattern prefix-matches at some split
point of the text. -/
theorem research_eq_true_iff (p : List RItem) :
    ∀ t : Text, research p t = true ↔ ∃ pre rest, t = pre ++ rest ∧ matchFrom p rest = true := by
  intro t
  induction t with
  | nil =>
    simp only [research]
    constructor
    · intro h; exact ⟨[], [], rfl, h⟩
    · rintro ⟨pre, rest, heq, hm⟩
      rcases List.append_eq_nil.mp heq.symm with ⟨_, hrest⟩
      subst hrest
      exact hm
  | cons x xs ih =>
    simp only [research, Bool.or_eq_true, ih]
    constructor
    · rintro (h | ⟨pre, rest, heq, hm⟩)
      · exact ⟨[], x :: xs, rfl, h⟩
      · exact ⟨x :: pre, rest, by simp [heq], hm⟩
    · rintro ⟨pre, rest, heq, hm⟩
      cases pre with
      | nil =>
        left
        simp only [List.nil_append] at heq
        rw [← heq] at hm
        exact hm
      | cons y ys =>
        right
        simp only [List.cons_append, List.cons.injEq] at heq
        exact ⟨ys, rest, heq.2, hm⟩

/-- `re.search` semantics: a match is found iff the text contains a
substring declaratively matched by the pattern. -/
theorem research_iff_contains (p : List RItem) (t : Text) :
    research p t = true ↔ ContainsPatternMatch p t := by
  rw [research_eq_true_iff]
  constructor
  · rintro ⟨pre, rest, heq, hm⟩
    rcases matchFrom_pmatch p rest hm with ⟨mid, post, hrest, pm⟩
    exact ⟨pre, mid, post, by rw [heq, hrest, List.append_assoc], pm⟩
  · rintro ⟨pre, mid, post, heq, pm⟩
    exact ⟨pre, mid ++ post, by rw [heq, List.append_assoc], pmatch_matchFrom pm post⟩

/-- The filter flags a text exactly when some configured pattern matches a
substring of it. -/
theorem is_safe_content_false_iff (t : Text) :
    is_safe_content t = false ↔
      ∃ p, p ∈ blocked_patterns ∧ ContainsPatternMatch p t := by
  simp only [is_safe_content, Bool.not_eq_false', List.any_eq_true, research_iff_contains]

/-- The Boolean matcher is insensitive to lowercasing the input. -/
theorem matchFrom_map_lower (p : List RItem) :
    ∀ s : Text, matchFrom p (pyLower s) = matchFrom p s := by
  induction p with
  | nil => intro s; simp [matchFrom]
  | cons item ps ih =>
    intro s
    cases item with
    | lit c =>
      cases s with
      | nil => rfl
      | cons x xs =>
        have h2 := ih xs
        simp only [pyLower] at h2
        simp only [pyLower, List.map_cons, matchFrom]
        rw [lowerChar_idem, h2]
    | optLit c =>
      cases s with
      | nil => rfl
      | cons x xs =>
        have h1 := ih (x :: xs)
        have h2 := ih xs
        simp only [pyLower, List.map_cons] at h1 h2
        simp only [pyLower, List.map_cons, matchFrom]
        rw [h1, h2, lowerChar_idem]
    | optDot =>
      cases s with
      | nil => rfl
      | cons x xs =>
        have h1 := ih (x :: xs)
        have h2 := ih xs
        simp only [pyLower, List.map_cons] at h1 h2
        simp only [pyLower, List.map_cons, matchFrom]
        rw [h1, h2, lowerChar_bne_nl]

/-- `re.search` is insensitive to lowercasing the input. -/
theorem research_map_lower (p : List RItem) :
    ∀ t : Text, research p (pyLower t) = research p t := by
  intro t
  induction t with
  | nil => rfl
  | cons x xs ih =>
    have h1 := matchFrom_map_lower p (x :: xs)
    simp only [pyLower, List.map_cons] at h1 ih
    simp only [pyLower, List.map_cons, research]
    rw [h1, ih]

/-- The content filter is insensitive to lowercasing the input. -/
theorem is_safe_map_lower (t : Text) :
    is_safe_content (pyLower t) = is_safe_content t := by
  simp only [is_safe_content, research_map_lower]

/-- A pattern whose head is a stable non-whitespace literal cannot start
matching at a whitespace character. -/
theorem matchFrom_space_head_false (p : List RItem) (hp : headRejectsWs p = true)
    (w : Char) (hw : pyIsSpace w = true) (rest : Text) :
    matchFrom p (w :: rest) = false := by
  cases p with
  | nil => simp [headRejectsWs] at hp
  | cons item ps =>
    cases item with
    | lit c =>
      simp only [headRejectsWs, Bool.and_eq_true, beq_iff_eq, Bool.not_eq_true'] at hp
      have hwc : lowerChar w = w := lowerChar_of_space w hw
      have hne : (lowerChar w == lowerChar c) = false := by
        rw [hwc, hp.1]
        simp only [beq_eq_false_iff_ne, ne_eq]
        intro h
        subst h
        rw [hw] at hp
        exact Bool.noConfusion hp.2
      simp [matchFrom, hne]
    | optLit c => simp [headRejectsWs] at hp
    | optDot => simp [headRejectsWs] at hp

/-- Such a pattern does not match anywhere in an all-whitespace string. -/
theorem matchFrom_allws_false (p : List RItem) (hp : headRejectsWs p = true) :
    ∀ ws : Text, allWs ws = true → matchFrom p ws = false := by
  intro ws hws
  cases ws with
  | nil =>
    cases p with
    | nil => simp [headRejectsWs] at hp
    | cons item ps =>
      cases item with
      | lit c => rfl
      | optLit c => simp [headRejectsWs] at hp
      | optDot => simp [headRejectsWs] at hp
  | cons w ws2 =>
    have hw : pyIsSpace w = true := by
      simp only [allWs, List.all_cons, Bool.and_eq_true] at hws
      exact hws.1
    exact matchFrom_space_head_false p hp w hw ws2

/-- `re.search` finds nothing in an all-whitespace string for such a
pattern. -/
theorem research_allws_false (p : List RItem) (hp : headRejectsWs p = true) :
    ∀ ws : Text, allWs ws = true → research p ws = false := by
  intro ws
  induction ws with
  | nil =>
    intro _
    simp only [research]
    exact matchFrom_allws_false p hp [] (by simp [allWs])
  | cons w ws2 ih =>
    intro hws
    simp only [allWs, List.all_cons, Bool.and_eq_true] at hws
    simp only [research]
    rw [matchFrom_space_head_false p hp w hws.1, ih (by simp [allWs, hws.2])]
    rfl

/-- Prepending whitespace does not change the search outcome. -/
theorem research_prepend_ws (p : List RItem) (hp : headRejectsWs p = true) :
    ∀ (ws t : Text), allWs ws = true → research p (ws ++ t) = research p t := by
  intro ws
  induction ws with
  | nil => intro t _; rfl
  | cons w ws2 ih =>
    intro t hws
    simp only [allWs, List.all_cons, Bool.and_eq_true] at hws
    simp only [List.cons_append, research]
    rw [List.append_eq, matchFrom_space_head_false p hp w hws.1, ih t (by simp [allWs, hws.2])]
    rfl

/-- For a pattern whose literals are stable non-whitespace characters, a
prefix match that may consume trailing whitespace already matches without
it. -/
theorem matchFrom_drop_ws (p : List RItem) :
    ∀ (w s : Text), patOkForWs p = true → allWs w = true →
      matchFrom p (s ++ w) = true → matchFrom p s = true := by
  induction p with
  | nil => intro w s _ _ _; simp [matchFrom]
  | cons item ps ih =>
    intro w s hok hws h
    have hokps : patOkForWs ps = true := by
      simp only [patOkForWs, List.all_cons, Bool.and_eq_true] at hok
      exact hok.2
    cases item with
    | lit c =>
      have hc : lowerChar c = c ∧ pyIsSpace c = false := by
        simp only [patOkForWs, List.all_cons, Bool.and_eq_true, beq_iff_eq,
          Bool.not_eq_true'] at hok
        exact hok.1
      cases s with
      | cons x xs =>
        simp only [List.cons_append, matchFrom, Bool.and_eq_true] at h ⊢
        exact ⟨h.1, ih w xs hokps hws h.2⟩
      | nil =>
        exfalso
        simp only [List.nil_append] at h
        cases w with
        | nil => simp [matchFrom] at h
        | cons w1 w2 =>
          have hw1 : pyIsSpace w1 = true := by
            simp only [allWs, List.all_cons, Bool.and_eq_true] at hws
            exact hws.1
          simp only [matchFrom, Bool.and_eq_true, beq_iff_eq] at h
          have h1 := h.1
          rw [lowerChar_of_space w1 hw1, hc.1] at h1
          rw [h1] at hw1
          rw [hc.2] at hw1
          exact Bool.noConfusion hw1
    | optLit c =>
      have hc : lowerChar c = c ∧ pyIsSpace c = false := by
        simp only [patOkForWs, List.all_cons, Bool.and_eq_true, beq_iff_eq,
          Bool.not_eq_true'] at hok
        exact hok.1
      cases s with
      | nil =>
        simp only [List.nil_append] at h
        simp only [matchFrom, Bool.or_eq_true] at h ⊢
        left
        rcases h with h | h
        · exact (by simpa using ih w [] hokps hws (by simpa using h))
        · exfalso
          cases w with
          | nil => cases h
          | cons w1 w2 =>
            have hw1 : pyIsSpace w1 = true := by
              simp only [allWs, List.all_cons, Bool.and_eq_true] at hws
              exact hws.1
            simp only [Bool.and_eq_true, beq_iff_eq] at h
            have h1 := h.1
            rw [lowerChar_of_space w1 hw1, hc.1] at h1
            rw [h1] at hw1
            rw [hc.2] at hw1
            exact Bool.noConfusion hw1
      | cons x xs =>
        simp only [List.cons_append, matchFrom, Bool.or_eq_true, Bool.and_eq_true] at h ⊢
        rcases h with h | h
        · left
          exact ih w (x :: xs) hokps hws (by simpa using h)
        · right
          exact ⟨h.1, ih w xs hokps hws h.2⟩
    | optDot =>
      cases s with
      | nil =>
        simp only [List.nil_append] at h
        simp only [matchFrom, Bool.or_eq_true] at h ⊢
        left
        rcases h with h | h
        · exact (by simpa using ih w [] hokps hws (by simpa using h))
        · cases w with
          | nil => cases h
          | cons w1 w2 =>
            have hw2 : allWs w2 = true := by
              simp only [allWs, List.all_cons, Bool.and_eq_true] at hws
              simp [allWs, hws.2]
            simp only [Bool.and_eq_true] at h
            exact (by simpa using ih w2 [] hokps hw2 (by simpa using h.2))
      | cons x xs =>
        simp only [List.cons_append, matchFrom, Bool.or_eq_true, Bool.and_eq_true] at h ⊢
        rcases h with h | h
        · left
          exact ih w (x :: xs) hokps hws (by simpa using h)
        · right
          exact ⟨h.1, ih w xs hokps hws h.2⟩

/-- Appending whitespace does not change the search outcome for the
configured kind of pattern. -/
theorem research_append_ws (p : List RItem) (hok : patOkForWs p = true)
    (hp : headRejectsWs p = true) :
    ∀ (t ws : Text), allWs ws = true → research p (t ++ ws) = research p t := by
  intro t
  induction t with
  | nil =>
    intro ws hws
    simp only [List.nil_append]
    rw [research_allws_false p hp ws hws]
    simp only [research]
    rw [matchFrom_allws_false p hp [] (by simp [allWs])]
  | cons x xs ih =>
    intro ws hws
    have hiff : matchFrom p ((x :: xs) ++ ws) = matchFrom p (x :: xs) := by
      cases hmm : matchFrom p (x :: xs) with
      | true => exact matchFrom_append_any p (x :: xs) ws hmm
      | false =>
        cases hl : matchFrom p ((x :: xs) ++ ws) with
        | false => rfl
        | true =>
          have := matchFrom_drop_ws p ws (x :: xs) hok hws hl
          rw [hmm] at this
          exact Bool.noConfusion this
    simp only [List.cons_append] at hiff
    simp only [List.cons_append, research]
    rw [List.append_eq, hiff, ih ws hws]

/-- Surrounding a text with whitespace does not change the filter
decision. -/
theorem is_safe_ws_invariant (t ws1 ws2 : Text)
    (h1 : allWs ws1 = true) (h2 : allWs ws2 = true) :
    is_safe_content (ws1 ++ t ++ ws2) = is_safe_content t := by
  have key : ∀ p, p ∈ blocked_patterns → research p (ws1 ++ t ++ ws2) = research p t := by
    intro p hp
    simp only [blocked_patterns, List.mem_cons, List.not_mem_nil, or_false] at hp
    have hok : patOkForWs p = true := by
      rcases hp with rfl | rfl | rfl | rfl <;> decide
    have hh : headRejectsWs p = true := by
      rcases hp with rfl | rfl | rfl | rfl <;> decide
    rw [List.append_assoc, research_prepend_ws p hh ws1 (t ++ ws2) h1,
      research_append_ws p hok hh t ws2 h2]
  have k1 := key passwordPat (by simp [blocked_patterns])
  have k2 := key creditCardPat (by simp [blocked_patterns])
  have k3 := key ssnPat (by simp [blocked_patterns])
  have k4 := key socialSecurityPat (by simp [blocked_patterns])
  simp only [is_safe_content, blocked_patterns, List.any_cons, List.any_nil, k1, k2, k3, k4]

/-- Claim C7: `is_safe_content` returns false exactly for texts containing
a substring matched by some configured blocked pattern (the match relation
`PMatch` compares characters through `lowerChar`, so matching is
case-insensitive), and true otherwise; the decision is unchanged by
surrounding whitespace and by any recasing of the text (any text with the
same lowercasing decides the same way). The embedding is a pure function,
so the predicate has no side effects. -/
theorem claim_c7_content_filter (t : Text) :
    (is_safe_content t = false ↔ ∃ p, p ∈ blocked_patterns ∧ ContainsPatternMatch p t) ∧
    (∀ ws1 ws2, allWs ws1 = true → allWs ws2 = true →
      is_safe_content (ws1 ++ t ++ ws2) = is_safe_content t) ∧
    is_safe_content (pyLower t) = is_safe_content t ∧
    (∀ u : Text, pyLower u = pyLower t → is_safe_content u = is_safe_content t) := by
  refine ⟨is_safe_content_false_iff t,
    fun ws1 ws2 h1 h2 => is_safe_ws_invariant t ws1 ws2 h1 h2,
    is_safe_map_lower t, fun u hu => ?_⟩
  rw [← is_safe_map_lower u, hu, is_safe_map_lower t]

/-- Witness for C7 at concrete inputs: surrounding whitespace and recasing
do not change the decision on a sample text. -/
theorem claim_c7_witness :
    is_safe_content (" ".data ++ "my ssn is 123".data ++ "\t".data) =
      is_safe_content "my ssn is 123".data ∧
    is_safe_content "MY SSN Is 123".data = is_safe_content "my ssn is 123".data :=
  ⟨(claim_c7_content_filter "my ssn is 123".data).2.1 " ".data "\t".data
      (by decide) (by decide),
    (claim_c7_content_filter "my ssn is 123".data).2.2.2 "MY SSN Is 123".data (by decide)⟩

/-- Claim C2: when the guard rejects the stripped completion,
`query_database` returns the empty list and its result is independent of
the connection and executor: no execution attempt occurs. -/
theorem claim_c2_no_execution_without_guard (completion : Text)
    (h : guardAccepts (pyStrip completion) = false) :
    (∀ conn, query_database (Except.ok completion) conn = Except.ok []) ∧
    (∀ conn1 conn2, query_database (Except.ok completion) conn1 =
      query_database (Except.ok completion) conn2) := by
  refine ⟨fun conn => qd_reject completion conn h, fun c1 c2 => ?_⟩
  rw [qd_reject completion c1 h, qd_reject completion c2 h]

/-- Witness for C2: the scenario completion `DROP TABLE users;` yields the
empty list even when no connection could be opened. -/
theorem claim_c2_witness :
    query_database (Except.ok "DROP TABLE users;".data) (Except.error "conn down".data) =
      Except.ok [] :=
  (claim_c2_no_execution_without_guard "DROP TABLE users;".data (by decide)).1
    (Except.error "conn down".data)

/-- Claim C6: the guard is a pure prefix gate: it accepts exactly the
strings whose stripped, lowercased form begins with `select` (whatever
follows, however malformed); rejection short-circuits `query_database` to
the empty list, acceptance hands the stripped string to the executor. -/
theorem claim_c6_guard_prefix_gate (s : Text) :
    (guardAccepts (pyStrip s) = true ↔
      ∃ rest, pyLower (pyStrip s) = "select".data ++ rest) ∧
    (guardAccepts (pyStrip s) = false →
      ∀ conn, query_database (Except.ok s) conn = Except.ok []) ∧
    (guardAccepts (pyStrip s) = true →
      ∀ exec : Executor, query_database (Except.ok s) (Except.ok exec) =
        (match exec (pyStrip s) with
         | Except.error _ => Except.ok []
         | Except.ok (columns, rows) => Except.ok (processRows columns rows))) := by
  refine ⟨?_, fun h conn => qd_reject s conn h, fun h exec => qd_accept s exec h⟩
  simp only [guardAccepts, pyStartsWith]
  exact isPrefixOf_iff_exists "select".data (pyLower (pyStrip s))

/-- Witness for C6: a mixed-case, otherwise malformed completion passes
the gate and reaches the executor verbatim (stripped). -/
theorem claim_c6_witness :
    query_database (Except.ok " SeLeCt * from anything nonsense ((".data)
        (Except.ok sampleExec) =
      Except.ok [[("col".data, "SeLeCt * from anything nonsense ((".data)]] := by
  rw [(claim_c6_guard_prefix_gate " SeLeCt * from anything nonsense ((".data).2.2
    (by decide) sampleExec]
  rfl

/-- Claim C8 (implicit): once the guard accepts, the stripped completion
is passed to the executor exactly as-is: the result is the filtered output
of the executor on precisely `pyStrip completion`; no allowed-tables check
appears and nothing chained after the SELECT prefix is removed. -/
theorem claim_c8_executed_verbatim (completion : Text) (exec : Executor)
    (h : guardAccepts (pyStrip completion) = true) :
    query_database (Except.ok completion) (Except.ok exec) =
      (match exec (pyStrip completion) with
       | Except.error _ => Except.ok []
       | Except.ok (columns, rows) => Except.ok (processRows columns rows)) :=
  qd_accept completion exec h

/-- Witness for C8: a chained destructive statement on a non-allowed table
is executed verbatim after the SELECT prefix check. -/
theorem claim_c8_witness :
    query_database (Except.ok "select * from secrets; DROP TABLE users".data)
        (Except.ok sampleExec) =
      Except.ok [[("col".data, "select * from secrets; DROP TABLE users".data)]] := by
  rw [claim_c8_executed_verbatim "select * from secrets; DROP TABLE users".data
    sampleExec (by decide)]
  rfl

/-- Claim C3 counterexample: with a valid SELECT completion, a failure to
open the connection propagates out of `query_database` (the `try` begins
only after the connection and cursor are obtained) instead of yielding the
empty list. -/
theorem claim_c3_counterexample :
    query_database (Except.ok "SELECT 1".data)
        (Except.error "could not connect to server".data) =
      Except.error "could not connect to server".data := rfl

/-- Claim C3 (amended): every error raised while executing the query or
fetching its results is caught and produces the empty list; only a failure
to open the connection or cursor escapes to the caller. -/
theorem claim_c3_exec_error_absorbed (completion : Text) (exec : Executor) (e : Text)
    (h : exec (pyStrip completion) = Except.error e) :
    query_database (Except.ok completion) (Except.ok exec) = Except.ok [] := by
  by_cases hg : guardAccepts (pyStrip completion) = true
  · rw [qd_accept completion exec hg, h]
  · rw [qd_reject completion (Except.ok exec) (by simpa using hg)]

/-- Witness for C3 (amended): an always-raising executor yields the empty
list for a guard-passing completion. -/
theorem claim_c3_witness :
    query_database (Except.ok "SELECT * FROM users".data) (Except.ok failingExec) =
      Except.ok [] :=
  claim_c3_exec_error_absorbed "SELECT * FROM users".data failingExec
    "syntax error at or near DROP".data rfl

/-- Claim C5: the row loop keeps exactly the rows whose record has
all-safe stringified values, each kept record being the zip-dict of its
row unchanged (byte-for-byte), and drops every other row entirely; hence
no returned record contains a value failing the filter. -/
theorem claim_c5_record_filter (columns : List Text) (rows : List (List Text)) :
    processRows columns rows =
      (((rows.filter fun row =>
          (pyDict (columns.zip row)).all fun kv => is_safe_content kv.2)).map
        fun row => pyDict (columns.zip row)) ∧
    ∀ r, r ∈ processRows columns rows → ∀ kv, kv ∈ r → is_safe_content kv.2 = true :=
  ⟨processRows_eq columns rows, processRows_safe columns rows⟩

/-- Witness for C5 at a concrete row: a kept record's value is safe. -/
theorem claim_c5_witness :
    is_safe_content "Alice".data = true :=
  (claim_c5_record_filter ["name".data] [["Alice".data]]).2
    [("name".data, "Alice".data)] (by decide) ("name".data, "Alice".data) (by decide)

/-- Claim C4 counterexample: six raw results with clean content but
blocked excerpts are all returned: more than the limit of 5, and each
returned excerpt fails the filter (the loop checks the `content` field,
not the returned `excerpt`). -/
theorem claim_c4_counterexample :
    (search_confluence (List.replicate 6 unsafeExcerptRaw)).length = 6 ∧
    (mkExcerpt unsafeExcerptRaw) ∈ search_confluence (List.replicate 6 unsafeExcerptRaw) ∧
    is_safe_content ((mkExcerpt unsafeExcerptRaw).excerpt.getD []) = false := by
  decide

/-- Claim C4 (amended): `search_confluence` returns, in provider order,
exactly the items whose raw `content` field passes the filter — hence at
most as many items as the provider returned (the limit 5 is only passed to
the provider, not enforced locally), and every returned item stems from a
content-safe raw result; the excerpt field itself is never checked. -/
theorem claim_c4_content_gate (raw : List RawResult) :
    search_confluence raw =
      ((raw.filter fun r => is_safe_content (r.content.getD [])).map mkExcerpt) ∧
    (search_confluence raw).length ≤ raw.length ∧
    ∀ item, item ∈ search_confluence raw →
      ∃ r, r ∈ raw ∧ is_safe_content (r.content.getD []) = true ∧ item = mkExcerpt r := by
  refine ⟨search_confluence_eq raw, ?_, ?_⟩
  · rw [search_confluence_eq raw, List.length_map]
    exact List.length_filter_le _ raw
  · intro item hitem
    rw [search_confluence_eq raw] at hitem
    rcases List.mem_map.mp hitem with ⟨r, hr, hEq⟩
    rcases List.mem_filter.mp hr with ⟨hraw, hsafe⟩
    exact ⟨r, hraw, hsafe, hEq.symm⟩

/-- Witness for C4 (amended): a clean raw result is returned and traced
back to its content-safe origin. -/
theorem claim_c4_witness :
    ∃ r, r ∈ [rawGood] ∧ is_safe_content (r.content.getD []) = true ∧
      mkExcerpt rawGood = mkExcerpt r :=
  (claim_c4_content_gate [rawGood]).2.2 (mkExcerpt rawGood) (by decide)

/-- Claim C9: the attribution suffix is determined exactly by which result
lists are non-empty: wiki only, neither, or both (joined with "and"). -/
theorem claim_c9_attribution (g : Text) (w : List SourceExcerpt) (d : List Record) :
    (w ≠ [] → d = [] → responseText g w d = g ++ "\n\nSources: Confluence".data) ∧
    (w = [] → d = [] → responseText g w d = g) ∧
    (w ≠ [] → d ≠ [] →
      responseText g w d = g ++ "\n\nSources: Confluence and internal database".data) := by
  refine ⟨?_, ?_, ?_⟩
  · intro hw hd
    subst hd
    cases w with
    | nil => exact absurd rfl hw
    | cons a as =>
      show g ++ "\n\nSources: ".data ++
          List.intercalate " and ".data ["Confluence".data] =
        g ++ "\n\nSources: Confluence".data
      rw [List.append_assoc]
      congr 1
  · intro hw hd
    subst hw
    subst hd
    rfl
  · intro hw hd
    cases w with
    | nil => exact absurd rfl hw
    | cons a as =>
      cases d with
      | nil => exact absurd rfl hd
      | cons b bs =>
        show g ++ "\n\nSources: ".data ++
            List.intercalate " and ".data ["Confluence".data, "internal database".data] =
          g ++ "\n\nSources: Confluence and internal database".data
        rw [List.append_assoc]
        congr 1

/-- Witness for C9 at concrete result lists, all three cases. -/
theorem claim_c9_witness :
    responseText "ans".data [e0] [] = "ans\n\nSources: Confluence".data ∧
    responseText "ans".data [] [] = "ans".data ∧
    responseText "ans".data [e0] [r0] =
      "ans\n\nSources: Confluence and internal database".data :=
  ⟨((claim_c9_attribution "ans".data [e0] []).1 (by decide) rfl).trans (by decide),
    (claim_c9_attribution "ans".data [] []).2.1 rfl rfl,
    ((claim_c9_attribution "ans".data [e0] [r0]).2.2 (by decide) (by decide)).trans (by decide)⟩

/-- Claim C10: whenever producing the answer raises any error (for example
the synthesis oracle call failing), both handlers reply with exactly the
fixed apology text — a constant independent of the error, so no internal
detail can appear in the reply. -/
theorem claim_c10_apology (eventText : Text) (env : Env) (e : Text)
    (h : generate_response env = Except.error e) :
    handle_mention eventText env = apologyText ∧
    handle_message "im".data env = some apologyText := by
  constructor
  · cases hsp : splitOnceAfter '>' eventText <;> simp [handle_mention, hsp, h]
  · simp [handle_message, h]

/-- Witness for C10: a raising synthesis oracle produces the apology for a
mention and for a direct message. -/
theorem claim_c10_witness :
    handle_mention "<@U123> what is the vpn process".data envSynthFail = apologyText ∧
    handle_message "im".data envSynthFail = some apologyText :=
  claim_c10_apology "<@U123> what is the vpn process".data envSynthFail
    "llama runtime error: context overflow".data rfl

/-- Claim C1 counterexample: with both sources empty and a synthesis
completion echoing blocked text, `generate_response` returns that text
unchanged, and it fails the content filter: the composed answer gets no
policy pass. -/
theorem claim_c1_counterexample :
    generate_response envLeak = Except.ok "The admin password is hunter2".data ∧
    is_safe_content "The admin password is hunter2".data = false :=
  ⟨rfl, by decide⟩

/-- Claim C1 (amended): filtering happens upstream only — every record
returned by the database path has only safe values — but whenever the
pipeline succeeds the composed answer is exactly the stripped synthesis
completion plus attribution suffix, with no final filter applied. -/
theorem claim_c1_no_final_filter (env : Env) (t : Text) (dbr : List Record)
    (hsynth : env.synthOracle = Except.ok t)
    (hdb : query_database env.sqlOracle env.conn = Except.ok dbr) :
    generate_response env =
      Except.ok (responseText (pyStrip t) (search_confluence env.wikiRaw) dbr) ∧
    ∀ r, r ∈ dbr → ∀ kv, kv ∈ r → is_safe_content kv.2 = true := by
  constructor
  · simp [generate_response, hdb, hsynth]
  · exact qd_records_safe env.sqlOracle env.conn dbr hdb

/-- Witness for C1 (amended) at a concrete environment. -/
theorem claim_c1_witness :
    generate_response envPlain =
      Except.ok (responseText (pyStrip "hello".data) (search_confluence []) []) :=
  (claim_c1_no_final_filter envPlain "hello".data [] rfl rfl).1
